import Mathlib

/-!
Verification development for the CiSE layout core (cytoscape.js-cise).

Shallow embedding of the two source files of the repository:
  src/CiSE/CiSECircle.js  — per-cluster circle data and accessors
  src/CiSE/CiSELayout.js  — cluster-graph builder and layout stages

Conventions of the embedding:
* JavaScript objects become Lean structures; in-place mutation becomes
  explicit state passing (an operation returns the updated record).
* JavaScript `null` becomes `Option.none`.
* Node identity (JS object identity) is captured by a `NodeRef` tag
  recording how and where `convertToClusteredGraph` created the node.
* The floating-point constants `Math.PI` / `IGeometry.TWO_PI` are
  abstracted as a rational parameter `pi` (with `2 * pi` for TWO_PI);
  all other numeric values are rationals.
-/

namespace CiSE

/-- Identity tag for a node created by `convertToClusteredGraph`
(CiSELayout.js lines 172-328): an on-circle member node of cluster `ci`
created for input id `id`, the placeholder node of cluster `ci`, or an
unclustered node created for input id `id`.  Two JS node objects are the
same object exactly when they carry the same tag. -/
inductive NodeRef where
  | member : Nat → Nat → NodeRef
  | placeholder : Nat → NodeRef
  | unclustered : Nat → NodeRef
deriving DecidableEq

/-- Modelled from the spec: `CiSENode` (src/CiSE/CiSENode.js is not among
the provided sources; §3 of the spec: a Node has an identity "(id,
optional cluster id — unclustered sentinel value)").  `nid` is the value
stored by `setId` (`none` when never called), `clusterId` the value
stored by `setClusterId` (`none` when never called, `-1` the unclustered
sentinel). -/
structure CNode where
  ref : NodeRef
  nid : Option Nat
  clusterId : Option Int
deriving DecidableEq

/-- CiSELayout.js lines 187-194: `newNode(null)` followed by
`setClusterId(i)` and `rootGraph.add`; `setId` is never called on a
cluster placeholder node. -/
def mkClusterNode (i : Nat) : CNode :=
  { ref := NodeRef.placeholder i, nid := none, clusterId := some (Int.ofNat i) }

/-- CiSELayout.js lines 210-216: `newCiSEOnCircleNode(...)` followed by
`setId(nodeID)` and `setClusterId(i)`. -/
def mkMemberNode (i : Nat) (id : Nat) : CNode :=
  { ref := NodeRef.member i id, nid := some id, clusterId := some (Int.ofNat i) }

/-- CiSELayout.js lines 240-244: unclustered input nodes get
`setClusterId(-1)` and `setId(id)`. -/
def mkUnclusteredNode (id : Nat) : CNode :=
  { ref := NodeRef.unclustered id, nid := some id, clusterId := some (-1) }

/-- A `CiSEEdge` as far as the builder is concerned: resolved endpoints
plus the `isIntraCluster` flag set in CiSELayout.js lines 263-274. -/
structure CEdge where
  source : CNode
  target : CNode
  isIntraCluster : Bool
deriving DecidableEq

/-- The greatest cluster index whose id-group contains `id`.  The JS map
`idToLNode` is written once per member occurrence while iterating the
clusters in ascending index order (CiSELayout.js line 222), so a later
write overwrites an earlier one; folding over the indices and keeping
the last hit reproduces that last-write-wins behaviour. -/
def lastClusterOf (clusters : List (List Nat)) (id : Nat) : Option Nat :=
  (List.range clusters.length).foldl
    (fun acc ci => if id ∈ clusters.getD ci [] then some ci else acc) none

/-- The `idToLNode` lookup map of CiSELayout.js lines 175-249 as a
function: an id listed in some cluster maps to the member node of the
last cluster listing it; otherwise an id of an input node maps to the
unclustered node created for it (line 248); an unknown id is absent. -/
def idToLNode (nodeIds : List Nat) (clusters : List (List Nat)) (id : Nat) : Option CNode :=
  match lastClusterOf clusters id with
  | some ci => some (mkMemberNode ci id)
  | none => if id ∈ nodeIds then some (mkUnclusteredNode id) else none

/-- `node.getOwner()` restricted to what the builder needs: a member
node is owned by its circle (identified by cluster index); placeholder
and unclustered nodes are owned by the root graph. -/
def ownerCircleIdx (n : CNode) : Option Nat :=
  match n.ref with
  | NodeRef.member ci _ => some ci
  | _ => none

/-- Where the loop body of CiSELayout.js lines 253-275 puts one input
edge: into the owner circle of its source (intra-cluster, line 269),
into the graph manager (inter-cluster, line 273), or nowhere
(self-loop, line 260-261). -/
inductive EdgePlacement where
  | toCircle : Nat → CEdge → EdgePlacement
  | toGraphManager : CEdge → EdgePlacement
  | dropped : EdgePlacement
deriving DecidableEq

/-- One iteration of the edge loop, CiSELayout.js lines 253-275.
`none` models the fatal failure on an edge referencing an unknown id
(the JS code would dereference `undefined`; spec §7 calls this a fatal
input-validation failure).  The inner `none` of the intra branch is
unreachable for endpoints produced by `idToLNode`: an intra-cluster
endpoint has a non-sentinel cluster id, hence is a member node. -/
def addEdge (m : Nat → Option CNode) (e : Nat × Nat) : Option EdgePlacement :=
  match m e.1, m e.2 with
  | some s, some t =>
    if s = t then some EdgePlacement.dropped
    else if s.clusterId = t.clusterId ∧ s.clusterId ≠ some (-1) ∧ t.clusterId ≠ some (-1) then
      match ownerCircleIdx s with
      | some ci => some (EdgePlacement.toCircle ci { source := s, target := t, isIntraCluster := true })
      | none => none
    else some (EdgePlacement.toGraphManager { source := s, target := t, isIntraCluster := false })
  | _, _ => none

/-- Result of the edge loop: per-circle intra-cluster edges (tagged by
owner circle index) and the graph manager's inter-cluster edge list. -/
structure EdgePhase where
  circleEdges : List (Nat × CEdge)
  gmEdges : List CEdge
deriving DecidableEq

def emptyEdgePhase : EdgePhase := { circleEdges := [], gmEdges := [] }

/-- The whole edge loop of CiSELayout.js lines 253-275, preserving the
input order of the added edges. -/
def addEdges (m : Nat → Option CNode) : List (Nat × Nat) → Option EdgePhase
  | [] => some emptyEdgePhase
  | e :: rest =>
    match addEdge m e, addEdges m rest with
    | none, _ => none
    | some _, none => none
    | some EdgePlacement.dropped, some r => some r
    | some (EdgePlacement.toCircle ci ce), some r =>
        some { r with circleEdges := (ci, ce) :: r.circleEdges }
    | some (EdgePlacement.toGraphManager ce), some r =>
        some { r with gmEdges := ce :: r.gmEdges }

/-- The builder-visible part of a `CiSECircle`: the on-circle node
sequence, the in/out classification and the intra-cluster edges added
to the circle (CiSECircle.js lines 33-43 initialise `inNodes`,
`outNodes`, `onCircleNodes` as empty arrays; the builder then pushes
into them). -/
structure BCircle where
  onCircleNodes : List CNode
  inNodes : List CNode
  outNodes : List CNode
  intraEdges : List CEdge
deriving DecidableEq

def emptyBCircle : BCircle :=
  { onCircleNodes := [], inNodes := [], outNodes := [], intraEdges := [] }

/-- The circles after the node loop and the edge loop of
`convertToClusteredGraph`: each member is pushed to `onCircleNodes` and
(initially) to `inNodes` (CiSELayout.js lines 215-219); `outNodes` is
still empty; the circle holds the intra-cluster edges added to it. -/
def buildCircles (clusters : List (List Nat)) (circleEdges : List (Nat × CEdge)) : List BCircle :=
  (List.range clusters.length).map (fun i =>
    { onCircleNodes := (clusters.getD i []).map (mkMemberNode i),
      inNodes := (clusters.getD i []).map (mkMemberNode i),
      outNodes := [],
      intraEdges := circleEdges.filterMap (fun p => if p.1 = i then some p.2 else none) })

/-- CiSELayout.js lines 308-312 / 319-323: `indexOf` + `splice(index,1)`
removes the first occurrence from `inNodes` (when present) and `push`
appends the node to `outNodes`; when the node is no longer in `inNodes`
nothing happens. -/
def moveToOut (c : BCircle) (n : CNode) : BCircle :=
  if n ∈ c.inNodes then
    { c with inNodes := c.inNodes.erase n, outNodes := c.outNodes ++ [n] }
  else c

/-- One endpoint of the out-node determination loop, CiSELayout.js lines
304-324: endpoints with cluster id `-1` are skipped; otherwise the
node's owner circle performs `moveToOut`. -/
def processEndpoint (circles : List BCircle) (n : CNode) : List BCircle :=
  if n.clusterId ≠ some (-1) then
    match n.ref with
    | NodeRef.member ci _ => circles.set ci (moveToOut (circles.getD ci emptyBCircle) n)
    | _ => circles
  else circles

/-- One graph-manager edge of the out-node determination loop
(CiSELayout.js lines 294-325): source endpoint first, then target. -/
def processGmEdge (circles : List BCircle) (e : CEdge) : List BCircle :=
  processEndpoint (processEndpoint circles e.source) e.target

/-- `this.graphManager.edges.forEach(...)`, CiSELayout.js lines 294-325. -/
def determineOutNodes (circles : List BCircle) (gmEdges : List CEdge) : List BCircle :=
  gmEdges.foldl processGmEdge circles

/-- The nodes added to the root graph: one placeholder per cluster
(CiSELayout.js line 194), then one node per unclustered input id
(line 245), in program order. -/
def mkRootNodes (nodeIds : List Nat) (clusters : List (List Nat)) : List CNode :=
  (List.range clusters.length).map mkClusterNode ++
    nodeIds.filterMap (fun id =>
      if clusters.any (fun g => id ∈ g) then none else some (mkUnclusteredNode id))

/-- Everything `convertToClusteredGraph` leaves behind that later stages
read: the root-graph nodes, the circles and the graph manager's
inter-cluster edges. -/
structure BuilderOut where
  rootNodes : List CNode
  circles : List BCircle
  gmEdges : List CEdge
deriving DecidableEq

/-- `convertToClusteredGraph` (CiSELayout.js lines 172-328).  `none`
models the fatal input-validation failures of spec §7: a cluster member
id absent from the input node list (the JS code dereferences an
`undefined` cytoscape node at line 206) or an edge endpoint id that
resolves to no node (line 257). -/
def convertToClusteredGraph (nodeIds : List Nat) (edges : List (Nat × Nat))
    (clusters : List (List Nat)) : Option BuilderOut :=
  if clusters.all (fun g => g.all (fun id => id ∈ nodeIds)) then
    match addEdges (idToLNode nodeIds clusters) edges with
    | none => none
    | some ep =>
      some { rootNodes := mkRootNodes nodeIds clusters,
             circles := determineOutNodes (buildCircles clusters ep.circleEdges) ep.gmEdges,
             gmEdges := ep.gmEdges }
  else none

/-!
### Incident-edge reordering (CiSELayout.js lines 572-696)

`reorderIncidentEdges` gathers, for one reduced (CoSE) edge, the
circular indices of the underlying inter-cluster edges, sorts them with
JavaScript's default `Array.prototype.sort()` (line 604) and computes a
wraparound-corrected circular mean (lines 616-687).
-/

/-- Strict lexicographic comparison of character lists by code unit,
the order `Array.prototype.sort()` uses on the string forms of its
elements when no comparator is given. -/
def charListLt : List Char → List Char → Bool
  | [], [] => false
  | [], _ :: _ => true
  | _ :: _, [] => false
  | a :: as, b :: bs =>
    if a.toNat < b.toNat then true
    else if b.toNat < a.toNat then false
    else charListLt as bs

/-- Insert `x` into a list sorted by the JS default string order:
`x` goes before the first element that is not strictly below it. -/
def jsInsert (x : Nat) : List Nat → List Nat
  | [] => [x]
  | y :: ys =>
    if charListLt (Nat.repr y).data (Nat.repr x).data then y :: jsInsert x ys
    else x :: y :: ys

/-- `edgeIndices.sort()` (CiSELayout.js line 604): JavaScript's default
sort converts every element to a string and orders the strings by code
unit, so numbers are ordered by their decimal representations. -/
def jsSort : List Nat → List Nat
  | [] => []
  | x :: xs => jsInsert x (jsSort xs)

/-- The loop variables of the largest-gap scan, CiSELayout.js lines
616-647: the current element (`null` before the first iteration), the
position counter (initially `-1`), the first element seen (initially
`-1`), the largest gap so far and its starting position (both
initially `-1`). -/
structure GapScanState where
  edgeIndex : Option Int
  edgeIndexPos : Int
  firstEdgeIndex : Int
  largestGap : Int
  indexLargestGapStart : Int
deriving DecidableEq

def gapScanInit : GapScanState :=
  { edgeIndex := none, edgeIndexPos := -1, firstEdgeIndex := -1,
    largestGap := -1, indexLargestGapStart := -1 }

/-- One iteration of the largest-gap scan (CiSELayout.js lines 628-647).
After the position increment, a new largest gap starts at
`edgeIndexPos - 1`, i.e. at the previous position value. -/
def gapScanStep (s : GapScanState) (x : Int) : GapScanState :=
  match s.edgeIndex with
  | some prev =>
    let gap := x - prev
    if gap > s.largestGap then
      { edgeIndex := some x, edgeIndexPos := s.edgeIndexPos + 1,
        firstEdgeIndex := s.firstEdgeIndex, largestGap := gap,
        indexLargestGapStart := s.edgeIndexPos }
    else
      { s with edgeIndex := some x, edgeIndexPos := s.edgeIndexPos + 1 }
  | none =>
    { s with edgeIndex := some x, edgeIndexPos := s.edgeIndexPos + 1, firstEdgeIndex := x }

/-- The adjustment loop of CiSELayout.js lines 660-669: every element at
a position strictly after the start of the largest gap is decremented
by `modVal` (the number of on-circle nodes).  `k` is the position of the
head of the remaining list, starting at `0`. -/
def adjustTail (indexLargestGapStart modVal : Int) : Int → List Int → List Int
  | _, [] => []
  | k, x :: xs =>
    (if k > indexLargestGapStart then x - modVal else x) ::
      adjustTail indexLargestGapStart modVal (k + 1) xs

/-- The per-reduced-edge body of `reorderIncidentEdges` from the sort
call onwards (CiSELayout.js lines 604-687): sort the gathered indices
with the JS default sort, find the largest gap between consecutive
entries including the wraparound gap `first + mod - last`, subtract
`mod` from every entry past the start of that gap, average, and add
`mod` back when the average is negative. -/
def computeRepresentativeIndex (rawIndices : List Nat) (modVal : Int) : ℚ :=
  let edgeIndices : List Int := (jsSort rawIndices).map Int.ofNat
  let s := edgeIndices.foldl gapScanStep gapScanInit
  let lastIdx := s.edgeIndex.getD 0
  let gapPair :=
    if s.firstEdgeIndex ≠ -1 ∧ s.firstEdgeIndex + modVal - lastIdx > s.largestGap then
      (s.firstEdgeIndex + modVal - lastIdx, s.edgeIndexPos)
    else (s.largestGap, s.indexLargestGapStart)
  let adjusted := if gapPair.1 > 0 then adjustTail gapPair.2 modVal 0 edgeIndices else edgeIndices
  let totalIndex : Int := adjusted.foldl (fun a b => a + b) 0
  let edgeCount : Int := Int.ofNat edgeIndices.length
  let averageIndex : ℚ := (totalIndex : ℚ) / (edgeCount : ℚ)
  if averageIndex < 0 then averageIndex + (modVal : ℚ) else averageIndex

/-!
### The order matrix (CiSECircle.js lines 196-231)

`computeOrderMatrix` fills an N×N array of booleans from the on-circle
node angles.  The 2D array is modelled as a function to `Option Bool`
(`none` = never-written cell); the floating-point constants `Math.PI`
and `IGeometry.TWO_PI` are abstracted as a rational parameter `pi`
with `2 * pi`.
-/

/-- Write one cell of the order matrix. -/
def matSet (m : Nat → Nat → Option Bool) (i j : Nat) (v : Bool) : Nat → Nat → Option Bool :=
  fun a b => if a = i ∧ b = j then some v else m a b

/-- CiSECircle.js lines 208-214: the angle difference from node `i` to
node `j`, with `TWO_PI` added once when negative. -/
def normalizedAngleDiff (pi a b : ℚ) : ℚ :=
  let d := b - a
  if d < 0 then d + 2 * pi else d

/-- CiSECircle.js lines 216-225: for a pair `i < j`, cell `(i,j)` is set
to whether the normalized angle difference is at most `pi` and cell
`(j,i)` to its negation. -/
def orderPairUpdate (pi : ℚ) (angles : List ℚ) (m : Nat → Nat → Option Bool)
    (i j : Nat) : Nat → Nat → Option Bool :=
  if normalizedAngleDiff pi (angles.getD i 0) (angles.getD j 0) ≤ pi then
    matSet (matSet m i j true) j i false
  else
    matSet (matSet m i j false) j i true

/-- `computeOrderMatrix` (CiSECircle.js lines 196-231): nested loops over
`i` and `j` in `0..N-1`, acting only when `j > i`, starting from the
all-unset matrix.  `angles` lists the on-circle node angles in node
order. -/
def computeOrderMatrixFn (pi : ℚ) (angles : List ℚ) : Nat → Nat → Option Bool :=
  (List.range angles.length).foldl
    (fun m i =>
      (List.range angles.length).foldl
        (fun m j => if i < j then orderPairUpdate pi angles m i j else m) m)
    (fun _ _ => none)

/-- The boolean stored at a cell `(i,j)` with `i < j`. -/
def orderBool (pi : ℚ) (angles : List ℚ) (i j : Nat) : Bool :=
  decide (normalizedAngleDiff pi (angles.getD i 0) (angles.getD j 0) ≤ pi)

/-!
### The `CiSECircle` object (CiSECircle.js lines 19-231)

In-place mutation becomes state passing: an accessor that memoizes
returns the value together with the updated circle.
-/

/-- A `CiSECircle` (constructor CiSECircle.js lines 19-64).  `edges` is
the circle's own `LGraph` edge list (`this.getEdges()`), which receives
exactly the intra-cluster edges during construction.
`outNodeExtInterEdges` and `angles` are modelled from the spec: they
stand for the `CiSEOnCircleNodeExt` data (`getInterClusterEdges()` per
out-node, `getAngle()` per on-circle node; src/CiSE/CiSENode.js and the
node extension are not among the provided sources; spec §3: the
extension record holds the angle and "the list of inter-cluster edges
incident to it").  `outNodeExtInterEdges` is aligned with `outNodes`,
`angles` with `onCircleNodes`. -/
structure MCircle where
  intraClusterEdges : Option (List CEdge)
  interClusterEdges : Option (List CEdge)
  inNodes : List CNode
  outNodes : List CNode
  onCircleNodes : List CNode
  inCircleNodes : List CNode
  radius : ℚ
  orderMatrix : Option (Nat → Nat → Option Bool)
  mayBeReversed : Bool
  edges : List CEdge
  outNodeExtInterEdges : List (List CEdge)
  angles : List ℚ
  margin : ℚ

/-- The field initialisation of the `CiSECircle` constructor
(CiSECircle.js lines 26-63): memoized edge lists start as `null`, node
lists empty, radius `0`, order matrix `null`, `mayBeReversed = true`. -/
def initCiSECircle : MCircle :=
  { intraClusterEdges := none, interClusterEdges := none, inNodes := [], outNodes := [],
    onCircleNodes := [], inCircleNodes := [], radius := 0, orderMatrix := none,
    mayBeReversed := true, edges := [], outNodeExtInterEdges := [], angles := [],
    margin := 0 }

/-- `setRadius` (CiSECircle.js lines 77-80). -/
def setRadius (r : ℚ) (c : MCircle) : MCircle := { c with radius := r }

/-- `setMayNotBeReversed` (CiSECircle.js lines 112-114), the only
mutator of `mayBeReversed`. -/
def setMayNotBeReversed (c : MCircle) : MCircle := { c with mayBeReversed := false }

/-- `getInterClusterEdges` (CiSECircle.js lines 153-169): on first call
collect, over the out-nodes in order, each node extension's
inter-cluster edges, memoize the list and return it; afterwards return
the memoized list. -/
def getInterClusterEdges (c : MCircle) : List CEdge × MCircle :=
  match c.interClusterEdges with
  | some l => (l, c)
  | none =>
    let l := c.outNodeExtInterEdges.foldl (fun acc es => acc ++ es) []
    (l, { c with interClusterEdges := some l })

/-- `getIntraClusterEdges` (CiSECircle.js lines 174-189): on first call
filter the circle's edge list by `isIntraCluster` and memoize it into
`this.intraClusterEdges`; in all cases the method then returns
`this.interClusterEdges` (line 188) — the other memoized field, which
is `null` when `getInterClusterEdges` has not run yet. -/
def getIntraClusterEdges (c : MCircle) : Option (List CEdge) × MCircle :=
  match c.intraClusterEdges with
  | some _ => (c.interClusterEdges, c)
  | none =>
    let computed := c.edges.filter (fun e => e.isIntraCluster)
    let c1 := { c with intraClusterEdges := some computed }
    (c1.interClusterEdges, c1)

/-- `computeOrderMatrix` as a circle mutator (CiSECircle.js lines
196-231): store the matrix computed from the on-circle node angles. -/
def circleComputeOrderMatrix (pi : ℚ) (c : MCircle) : MCircle :=
  { c with orderMatrix := some (computeOrderMatrixFn pi c.angles) }

/-- The body of `prepareCirclesForReversal` for one root node that owns
a circle (CiSELayout.js lines 709-716): mark the circle non-reversible
when it has fewer than 2 inter-cluster edges, then compute its order
matrix. -/
def prepareCircleForReversal (pi : ℚ) (c : MCircle) : MCircle :=
  let p := getInterClusterEdges c
  let c1 := if p.1.length < 2 then setMayNotBeReversed p.2 else p.2
  circleComputeOrderMatrix pi c1

/-- `prepareCirclesForReversal` (CiSELayout.js lines 704-718): iterate
the root-graph nodes; a node's `getChild()` is either `null` or its
circle. -/
def prepareCirclesForReversal (pi : ℚ) (roots : List (Option MCircle)) :
    List (Option MCircle) :=
  roots.map (fun child =>
    match child with
    | some c => some (prepareCircleForReversal pi c)
    | none => none)

/-!
### Step 2: quotient-graph placement (CiSELayout.js lines 427-559)

`doStep2` builds a transient CoSE graph (lines 430-529; this reads but
never writes the CiSE model), delegates to the external spring embedder
(`coseLayout.runLayout()`, line 534) and copies positions back (lines
538-557).  The embedder is a black box: it is modelled as an arbitrary
function `emb` giving the settled location of the CoSE node with id
`i` — ids are assigned `0 .. n-1` over the non-on-circle nodes in order
(line 471).
-/

/-- The doStep2-relevant data of one on-circle node: its location and
the node extension's circular index and angle. -/
structure OCNodeS where
  loc : ℚ × ℚ
  index : Nat
  angle : ℚ
deriving DecidableEq

/-- The doStep2-relevant data of one circle: the index of its
placeholder node among the non-on-circle nodes, its on-circle node
sequence, radius and reversal flag. -/
structure S2Circle where
  parentIdx : Nat
  onCircleNodes : List OCNodeS
  radius : ℚ
  mayBeReversed : Bool
deriving DecidableEq

/-- The doStep2-relevant layout state: the locations of the
non-on-circle nodes (cluster placeholders and unclustered nodes, in
`getNonOnCircleNodes()` order) and the circles. -/
structure S2State where
  nonOnCircleLocs : List (ℚ × ℚ)
  circles : List S2Circle
deriving DecidableEq

/-- The on-circle part of the doStep2 copy-back (CiSELayout.js lines
549-557) restricted to one circle: every on-circle node's location
becomes its old location plus the (already updated) location of the
circle's parent placeholder; nothing else changes. -/
def step2CircleUpdate (newLocs : List (ℚ × ℚ)) (c : S2Circle) : S2Circle :=
  { parentIdx := c.parentIdx,
    onCircleNodes := c.onCircleNodes.map (fun n =>
      { loc := (n.loc.1 + (newLocs.getD c.parentIdx (0, 0)).1,
          n.loc.2 + (newLocs.getD c.parentIdx (0, 0)).2),
        index := n.index, angle := n.angle }),
    radius := c.radius,
    mayBeReversed := c.mayBeReversed }

/-- `doStep2` (CiSELayout.js lines 427-559) after the embedder ran:
every non-on-circle node takes its CoSE counterpart's location (lines
538-544); afterwards every on-circle node's location is translated by
the *updated* location of its owning circle's parent placeholder
(lines 549-557). -/
def doStep2 (st : S2State) (emb : Nat → ℚ × ℚ) : S2State :=
  let newNonOnCircleLocs := (List.range st.nonOnCircleLocs.length).map emb
  { nonOnCircleLocs := newNonOnCircleLocs,
    circles := st.circles.map (step2CircleUpdate newNonOnCircleLocs) }

/-- Default circle used with `List.getD` when indexing Step-2 circles. -/
def defaultS2Circle : S2Circle :=
  { parentIdx := 0, onCircleNodes := [], radius := 0, mayBeReversed := true }

/-!
### Concrete instances used by the evaluation theorems
-/

/-- An intra-cluster edge between the two members of cluster 0. -/
def exIntraEdge : CEdge :=
  { source := mkMemberNode 0 0, target := mkMemberNode 0 1, isIntraCluster := true }

/-- An inter-cluster edge from a member of cluster 0 to an unclustered
node. -/
def exInterEdge : CEdge :=
  { source := mkMemberNode 0 0, target := mkUnclusteredNode 2, isIntraCluster := false }

/-- A circle as `convertToClusteredGraph` leaves it: cluster `[0, 1]`,
one intra-cluster edge in the circle's own edge list, one inter-cluster
edge incident to the out-node `0`. -/
def exCircle : MCircle :=
  { initCiSECircle with
      onCircleNodes := [mkMemberNode 0 0, mkMemberNode 0 1],
      inNodes := [mkMemberNode 0 1],
      outNodes := [mkMemberNode 0 0],
      edges := [exIntraEdge],
      outNodeExtInterEdges := [[exInterEdge]] }

/-- The circle the reversal-preparation pass produces from a freshly
constructed circle with no inter-cluster edges. -/
def exPreparedCircle : MCircle := prepareCircleForReversal 3 initCiSECircle

/-- The builder output for one single-member cluster over node list
`[0]` and no edges. -/
def exBuilderOut : BuilderOut :=
  { rootNodes := [mkClusterNode 0],
    circles := [{ onCircleNodes := [mkMemberNode 0 0], inNodes := [mkMemberNode 0 0],
                  outNodes := [], intraEdges := [] }],
    gmEdges := [] }

/-- The builder output for the cluster `[0, 1]` with unclustered node
`2`, one inter-cluster edge `(0, 2)` and one intra-cluster edge
`(0, 1)`. -/
def exBuilderOut2 : BuilderOut :=
  { rootNodes := [mkClusterNode 0, mkUnclusteredNode 2],
    circles := [{ onCircleNodes := [mkMemberNode 0 0, mkMemberNode 0 1],
                  inNodes := [mkMemberNode 0 1],
                  outNodes := [mkMemberNode 0 0],
                  intraEdges := [exIntraEdge] }],
    gmEdges := [exInterEdge] }

/-- Proof-side invariant: in every circle, the in-node and out-node
lists together are a permutation of the on-circle node list (spec §3's
partition invariant, stated multiset-wise). -/
def CirclesInv (cs : List BCircle) : Prop :=
  ∀ ci, (((cs.getD ci emptyBCircle).inNodes ++ (cs.getD ci emptyBCircle).outNodes)).Perm
    (cs.getD ci emptyBCircle).onCircleNodes

end CiSE

namespace CiSE

/-!
## Helper lemmas
-/

/-- `getD` commutes with `map` when the default is the image of a
default. -/
theorem getD_map {α β : Type} (f : α → β) (l : List α) (i : Nat) (d : α) :
    (l.map f).getD i (f d) = f (l.getD i d) := by
  induction l generalizing i with
  | nil => simp [List.getD]
  | cons x xs ih =>
    cases i with
    | zero => simp [List.getD]
    | succ k => exact ih k

/-- After `getInterClusterEdges` runs, the memo field holds exactly the
returned list. -/
theorem getInterClusterEdges_memo (c : MCircle) :
    (getInterClusterEdges c).2.interClusterEdges = some (getInterClusterEdges c).1 := by
  unfold getInterClusterEdges
  cases h : c.interClusterEdges <;> simp [h]

/-- `getInterClusterEdges` leaves every field except the memo
unchanged; in particular the reversal flag. -/
theorem getInterClusterEdges_mayBeReversed (c : MCircle) :
    (getInterClusterEdges c).2.mayBeReversed = c.mayBeReversed := by
  unfold getInterClusterEdges
  cases h : c.interClusterEdges <;> simp [h]

/-- `getIntraClusterEdges` leaves the reversal flag unchanged. -/
theorem getIntraClusterEdges_mayBeReversed (c : MCircle) :
    (getIntraClusterEdges c).2.mayBeReversed = c.mayBeReversed := by
  unfold getIntraClusterEdges
  cases h : c.intraClusterEdges <;> simp [h]

/-!
## C4 — the circular-mean heuristic on the spec's two worked examples
-/

/-- C4: the circular-mean heuristic of `reorderIncidentEdges` computes
representative index 0 for the index list `[0,1,5]` on a 6-node circle
(the wraparound correction turns the naive mean 2 into 0) and
representative index 2 for `[1,2,3]` on the same circle. -/
theorem c4_circular_mean :
    computeRepresentativeIndex [0, 1, 5] 6 = 0 ∧
      computeRepresentativeIndex [1, 2, 3] 6 = 2 := by
  constructor
  · have h : jsSort [0, 1, 5] = [0, 1, 5] := by decide
    norm_num [computeRepresentativeIndex, h, gapScanInit, gapScanStep, adjustTail]
  · have h : jsSort [1, 2, 3] = [1, 2, 3] := by decide
    norm_num [computeRepresentativeIndex, h, gapScanInit, gapScanStep, adjustTail]

/-!
## C2 — the gathered index list is NOT numerically sorted

`edgeIndices.sort()` (CiSELayout.js line 604) is JavaScript's default
sort, which orders elements by their string forms.  For single-digit
indices this coincides with numeric order, but for a circle with more
than ten on-circle nodes it does not: `[2, 10]` sorts to `[10, 2]`,
violating the ascending pre-condition the largest-gap scan relies on —
on a 12-node circle the computed representative index is 6 (the far
side of the circle) instead of the correct 0.
-/

/-- C2: evaluation at the failing input.  The gathered index list
`[2, 10]` (two digits) is sorted to `[10, 2]` — not ascending numeric
order — and the subsequent largest-gap computation on a 12-node circle
then yields representative index 6 instead of the numerically sorted
run's 0. -/
theorem c2_sort_is_lexicographic :
    jsSort [2, 10] = [10, 2] ∧
      ¬ List.Sorted (fun a b => a ≤ b) (jsSort [2, 10]) ∧
      computeRepresentativeIndex [2, 10] 12 = 6 := by
  refine ⟨by decide, by decide, ?_⟩
  have h : jsSort [2, 10] = [10, 2] := by decide
  norm_num [computeRepresentativeIndex, h, gapScanInit, gapScanStep, adjustTail]

/-!
## C1 — `getIntraClusterEdges` returns the inter-cluster list
-/

/-- C1: evaluation at the failing input.  On a finalized circle with one
intra-cluster edge and one inter-cluster edge: called before
`getInterClusterEdges`, the accessor returns `null`; called after, it
returns the memoized inter-cluster list — in both cases it has
correctly computed and memoized the intra-cluster list
`[exIntraEdge]`, but returns the `interClusterEdges` field
(CiSECircle.js line 188) instead. -/
theorem c1_getIntraClusterEdges_returns_inter :
    (getIntraClusterEdges exCircle).1 = none ∧
      (getIntraClusterEdges exCircle).2.intraClusterEdges = some [exIntraEdge] ∧
      (getIntraClusterEdges (getInterClusterEdges exCircle).2).1 = some [exInterEdge] ∧
      (getIntraClusterEdges (getInterClusterEdges exCircle).2).2.intraClusterEdges =
        some [exIntraEdge] ∧
      [exInterEdge] ≠ [exIntraEdge] := by
  refine ⟨rfl, rfl, rfl, rfl, by decide⟩

/-!
## C9 — `mayBeReversed` is initially true and monotone
-/

/-- C9 (implicit): `mayBeReversed` is initialized to `true` by the
`CiSECircle` constructor; `setMayNotBeReversed` (its only mutator) sets
it to `false`; every other circle operation of the model — the radius
setter, both memoizing edge accessors, the order-matrix computation —
preserves it; and the reversal-preparation pass can only keep it or
lower it to `false` (`&&` with the 2-inter-cluster-edge test), never
raise it back to `true`. -/
theorem c9_mayBeReversed_monotone :
    initCiSECircle.mayBeReversed = true ∧
      (∀ c : MCircle, (setMayNotBeReversed c).mayBeReversed = false) ∧
      (∀ (r : ℚ) (c : MCircle), (setRadius r c).mayBeReversed = c.mayBeReversed) ∧
      (∀ c : MCircle, (getInterClusterEdges c).2.mayBeReversed = c.mayBeReversed) ∧
      (∀ c : MCircle, (getIntraClusterEdges c).2.mayBeReversed = c.mayBeReversed) ∧
      (∀ (pi : ℚ) (c : MCircle),
        (circleComputeOrderMatrix pi c).mayBeReversed = c.mayBeReversed) ∧
      (∀ (pi : ℚ) (c : MCircle),
        (prepareCircleForReversal pi c).mayBeReversed =
          (c.mayBeReversed && decide (2 ≤ (getInterClusterEdges c).1.length))) := by
  refine ⟨rfl, fun c => rfl, fun r c => rfl,
    getInterClusterEdges_mayBeReversed, getIntraClusterEdges_mayBeReversed,
    fun pi c => rfl, fun pi c => ?_⟩
  simp only [prepareCircleForReversal, circleComputeOrderMatrix]
  by_cases h : (getInterClusterEdges c).1.length < 2
  · have hd : decide (2 ≤ (getInterClusterEdges c).1.length) = false := by
      simp
      omega
    simp [h, setMayNotBeReversed, hd]
  · have hd : decide (2 ≤ (getInterClusterEdges c).1.length) = true := by
      simp
      omega
    simp [h, getInterClusterEdges_mayBeReversed, hd]

/-!
## C10 — doStep2 mutates only node locations
-/

/-- C10 (implicit): `doStep2` updates the non-on-circle node locations
to the embedder's results and each on-circle node's location to its
previous circle-relative location plus its circle placeholder's new
location, while preserving — for every circle — the placeholder
reference, the on-circle node order, each node's circular index and
angle, the radius and the `mayBeReversed` flag. -/
theorem c10_doStep2_frame (st : S2State) (emb : Nat → ℚ × ℚ) :
    (doStep2 st emb).nonOnCircleLocs = (List.range st.nonOnCircleLocs.length).map emb ∧
      (doStep2 st emb).circles.length = st.circles.length ∧
      ∀ ci : Nat,
        ((doStep2 st emb).circles.getD ci defaultS2Circle).parentIdx =
            (st.circles.getD ci defaultS2Circle).parentIdx ∧
          ((doStep2 st emb).circles.getD ci defaultS2Circle).radius =
            (st.circles.getD ci defaultS2Circle).radius ∧
          ((doStep2 st emb).circles.getD ci defaultS2Circle).mayBeReversed =
            (st.circles.getD ci defaultS2Circle).mayBeReversed ∧
          ((doStep2 st emb).circles.getD ci defaultS2Circle).onCircleNodes.map OCNodeS.index =
            ((st.circles.getD ci defaultS2Circle).onCircleNodes).map OCNodeS.index ∧
          ((doStep2 st emb).circles.getD ci defaultS2Circle).onCircleNodes.map OCNodeS.angle =
            ((st.circles.getD ci defaultS2Circle).onCircleNodes).map OCNodeS.angle ∧
          ((doStep2 st emb).circles.getD ci defaultS2Circle).onCircleNodes =
            ((st.circles.getD ci defaultS2Circle).onCircleNodes).map (fun n =>
              { loc := (n.loc.1 +
                    (((List.range st.nonOnCircleLocs.length).map emb).getD
                      ((st.circles.getD ci defaultS2Circle).parentIdx) (0, 0)).1,
                  n.loc.2 +
                    (((List.range st.nonOnCircleLocs.length).map emb).getD
                      ((st.circles.getD ci defaultS2Circle).parentIdx) (0, 0)).2),
                index := n.index, angle := n.angle }) := by
  refine ⟨rfl, by simp [doStep2], fun ci => ?_⟩
  have hd : ((doStep2 st emb).circles.getD ci defaultS2Circle) =
      step2CircleUpdate ((List.range st.nonOnCircleLocs.length).map emb)
        (st.circles.getD ci defaultS2Circle) :=
    getD_map (step2CircleUpdate ((List.range st.nonOnCircleLocs.length).map emb))
      st.circles ci defaultS2Circle
  rw [hd]
  refine ⟨rfl, rfl, rfl, by simp [step2CircleUpdate], by simp [step2CircleUpdate], rfl⟩

/-!
## C8 — circles with fewer than 2 inter-cluster edges are not reversible
-/

/-- C8: after `prepareCirclesForReversal`, every circle whose
(memoized) inter-cluster edge list has fewer than 2 elements carries
`mayBeReversed = false`. -/
theorem c8_few_inter_edges_not_reversible (pi : ℚ) (roots : List (Option MCircle))
    (i : Nat) (c : MCircle)
    (h : (prepareCirclesForReversal pi roots).getD i none = some c)
    (l : List CEdge) (hl : c.interClusterEdges = some l) (hlen : l.length < 2) :
    c.mayBeReversed = false := by
  have h2 : (fun child : Option MCircle =>
      match child with
      | some c0 => some (prepareCircleForReversal pi c0)
      | none => none) (roots.getD i none) = some c :=
    Eq.trans (getD_map (fun child : Option MCircle =>
      match child with
      | some c0 => some (prepareCircleForReversal pi c0)
      | none => none) roots i none).symm h
  cases h0 : roots.getD i none with
  | none => rw [h0] at h2; exact Option.noConfusion h2
  | some c0 =>
    rw [h0] at h2
    have hc : c = prepareCircleForReversal pi c0 := (Option.some.inj h2).symm
    subst hc
    have hil : (prepareCircleForReversal pi c0).interClusterEdges =
        some ((getInterClusterEdges c0).1) := by
      simp only [prepareCircleForReversal]
      by_cases hcase : ((getInterClusterEdges c0).1).length < 2
      · simpa [hcase, circleComputeOrderMatrix, setMayNotBeReversed] using
          getInterClusterEdges_memo c0
      · simpa [hcase, circleComputeOrderMatrix] using getInterClusterEdges_memo c0
    have hll : l = (getInterClusterEdges c0).1 := by
      rw [hil] at hl
      exact (Option.some.inj hl).symm
    have hlt : ((getInterClusterEdges c0).1).length < 2 := hll ▸ hlen
    simp only [prepareCircleForReversal]
    simp [hlt, circleComputeOrderMatrix, setMayNotBeReversed]

/-- C8 witness: a circle with zero inter-cluster edges comes out of the
reversal preparation with `mayBeReversed = false`. -/
theorem c8_few_inter_edges_not_reversible_witness :
    (prepareCirclesForReversal 3 [some initCiSECircle]).getD 0 none =
        some exPreparedCircle ∧
      exPreparedCircle.interClusterEdges = some [] ∧
      ([] : List CEdge).length < 2 ∧
      exPreparedCircle.mayBeReversed = false :=
  ⟨rfl, rfl, by decide,
    c8_few_inter_edges_not_reversible 3 [some initCiSECircle] 0 exPreparedCircle rfl
      [] rfl (by decide)⟩

/-!
## Builder structure lemmas
-/

/-- Unfolding a successful `convertToClusteredGraph` run. -/
theorem convertToClusteredGraph_eq_some (nodeIds : List Nat) (edges : List (Nat × Nat))
    (clusters : List (List Nat)) (out : BuilderOut)
    (h : convertToClusteredGraph nodeIds edges clusters = some out) :
    ∃ ep, addEdges (idToLNode nodeIds clusters) edges = some ep ∧
      out.rootNodes = mkRootNodes nodeIds clusters ∧
      out.circles = determineOutNodes (buildCircles clusters ep.circleEdges) ep.gmEdges ∧
      out.gmEdges = ep.gmEdges := by
  unfold convertToClusteredGraph at h
  split at h
  · cases hA : addEdges (idToLNode nodeIds clusters) edges with
    | none => rw [hA] at h; exact Option.noConfusion h
    | some ep =>
      rw [hA] at h
      have hout := (Option.some.inj h).symm
      exact ⟨ep, rfl, by rw [hout], by rw [hout], by rw [hout]⟩
  · exact Option.noConfusion h

/-- Invariant of the last-hit fold behind `lastClusterOf`. -/
theorem lastHit_foldl_spec (clusters : List (List Nat)) (id : Nat) (is : List Nat)
    (acc : Option Nat)
    (hacc : ∀ ci, acc = some ci → ci < clusters.length ∧ id ∈ clusters.getD ci [])
    (his : ∀ ci ∈ is, ci < clusters.length) :
    ∀ ci, is.foldl (fun a c => if id ∈ clusters.getD c [] then some c else a) acc = some ci →
      ci < clusters.length ∧ id ∈ clusters.getD ci [] := by
  induction is generalizing acc with
  | nil => exact hacc
  | cons c cs ih =>
    intro ci h
    have hstep : ∀ cj, (if id ∈ clusters.getD c [] then some c else acc) = some cj →
        cj < clusters.length ∧ id ∈ clusters.getD cj [] := by
      intro cj hj
      by_cases hc : id ∈ clusters.getD c []
      · rw [if_pos hc] at hj
        cases Option.some.inj hj
        exact ⟨his c (List.mem_cons_self c cs), hc⟩
      · rw [if_neg hc] at hj
        exact hacc cj hj
    exact ih _ hstep (fun x hx => his x (List.mem_cons_of_mem c hx)) ci h

/-- A hit of `lastClusterOf` is a real cluster index containing the id. -/
theorem lastClusterOf_spec (clusters : List (List Nat)) (id ci : Nat)
    (h : lastClusterOf clusters id = some ci) :
    ci < clusters.length ∧ id ∈ clusters.getD ci [] :=
  lastHit_foldl_spec clusters id (List.range clusters.length) none
    (fun _ hx => Option.noConfusion hx)
    (fun _ hx => List.mem_range.mp hx) ci h

/-- Every node the id map produces is either the member node of a
cluster really containing the id, or the unclustered node of an id on
the input node list. -/
theorem idToLNode_shape (nodeIds : List Nat) (clusters : List (List Nat)) (id : Nat)
    (n : CNode) (h : idToLNode nodeIds clusters id = some n) :
    (∃ ci, ci < clusters.length ∧ id ∈ clusters.getD ci [] ∧ n = mkMemberNode ci id) ∨
      (n = mkUnclusteredNode id ∧ id ∈ nodeIds) := by
  unfold idToLNode at h
  cases hl : lastClusterOf clusters id with
  | some ci =>
    rw [hl] at h
    obtain ⟨h1, h2⟩ := lastClusterOf_spec clusters id ci hl
    exact Or.inl ⟨ci, h1, h2, (Option.some.inj h).symm⟩
  | none =>
    rw [hl] at h
    by_cases hm : id ∈ nodeIds
    · rw [if_pos hm] at h
      exact Or.inr ⟨(Option.some.inj h).symm, hm⟩
    · rw [if_neg hm] at h
      exact Option.noConfusion h

/-- A member node's cluster id is never the unclustered sentinel. -/
theorem mkMemberNode_clusterId_ne (ci id : Nat) :
    (mkMemberNode ci id).clusterId ≠ some (-1) := by
  intro h
  have h2 : (ci : Int) = -1 := Option.some.inj h
  omega

/-!
## C3 — cluster placeholder nodes and the cluster id
-/

/-- C3 counterexample: for the single cluster `[0]`, the builder's root
graph holds exactly the cluster placeholder node, and that node's
cluster id field is `some 0` (set by `setClusterId(i)`, CiSELayout.js
line 191) — not the absent cluster id the claim asserts. -/
theorem c3_placeholder_clusterId_counterexample :
    (convertToClusteredGraph [0] [] [[0]]).map
        (fun o => o.rootNodes.map (fun n => (n.ref, n.clusterId))) =
      some [(NodeRef.placeholder 0, some 0)] ∧
      (some (0 : Int) : Option Int) ≠ (none : Option Int) :=
  ⟨by decide, by decide⟩

/-- C3 amended: every cluster placeholder node carries the cluster id
of the cluster it represents (it is the node id that placeholders lack
— `setId` is never called on them), while member on-circle nodes carry
both a node id and the cluster id. -/
theorem c3_placeholder_carries_cluster_id (nodeIds : List Nat) (edges : List (Nat × Nat))
    (clusters : List (List Nat)) (out : BuilderOut)
    (h : convertToClusteredGraph nodeIds edges clusters = some out) :
    ∀ n ∈ out.rootNodes, ∀ ci : Nat, n.ref = NodeRef.placeholder ci →
      n.clusterId = some (Int.ofNat ci) ∧ n.nid = none := by
  obtain ⟨ep, hA, hroot, hcirc, hgm⟩ :=
    convertToClusteredGraph_eq_some nodeIds edges clusters out h
  intro n hn ci href
  rw [hroot] at hn
  unfold mkRootNodes at hn
  rcases List.mem_append.mp hn with h1 | h2
  · obtain ⟨i, hi, rfl⟩ := List.mem_map.mp h1
    have hci : i = ci := NodeRef.placeholder.inj href
    subst hci
    exact ⟨rfl, rfl⟩
  · obtain ⟨id, hid, hsome⟩ := List.mem_filterMap.mp h2
    by_cases hcl : (clusters.any fun g => decide (id ∈ g)) = true
    · rw [if_pos hcl] at hsome
      exact Option.noConfusion hsome
    · rw [if_neg hcl] at hsome
      cases Option.some.inj hsome
      exact NodeRef.noConfusion href

/-- C3 witness: the amended statement applied to the concrete
single-cluster input. -/
theorem c3_placeholder_carries_cluster_id_witness :
    convertToClusteredGraph [0] [] [[0]] = some exBuilderOut ∧
      (∀ n ∈ exBuilderOut.rootNodes, ∀ ci : Nat, n.ref = NodeRef.placeholder ci →
        n.clusterId = some (Int.ofNat ci) ∧ n.nid = none) :=
  ⟨by decide, c3_placeholder_carries_cluster_id [0] [] [[0]] exBuilderOut (by decide)⟩

/-!
## C7 — edge classification during construction
-/

/-- `addEdge` on an input edge whose endpoints both resolve. -/
theorem addEdge_resolved (m : Nat → Option CNode) (s t : Nat) (ns nt : CNode)
    (hs : m s = some ns) (ht : m t = some nt) :
    addEdge m (s, t) =
      (if ns = nt then some EdgePlacement.dropped
       else if ns.clusterId = nt.clusterId ∧ ns.clusterId ≠ some (-1) ∧
           nt.clusterId ≠ some (-1) then
         match ownerCircleIdx ns with
         | some ci => some (EdgePlacement.toCircle ci
             { source := ns, target := nt, isIntraCluster := true })
         | none => none
       else some (EdgePlacement.toGraphManager
           { source := ns, target := nt, isIntraCluster := false })) := by
  simp only [addEdge, hs, ht]

/-- C7: for every input edge whose endpoints resolve to two distinct
nodes, the constructed edge keeps those endpoints and is intra-cluster
exactly when both carry the same non-sentinel cluster id (an
intra-cluster edge lands in the source's circle, any other edge in the
graph manager); an edge whose endpoints resolve to the same node is
dropped and produces no edge. -/
theorem c7_edge_classification (nodeIds : List Nat) (clusters : List (List Nat))
    (s t : Nat) (ns nt : CNode)
    (hs : idToLNode nodeIds clusters s = some ns)
    (ht : idToLNode nodeIds clusters t = some nt) :
    (ns = nt → addEdge (idToLNode nodeIds clusters) (s, t) = some EdgePlacement.dropped) ∧
      (ns ≠ nt → ∃ e : CEdge, e.source = ns ∧ e.target = nt ∧
        (e.isIntraCluster = true ↔
          (ns.clusterId = nt.clusterId ∧ ns.clusterId ≠ some (-1))) ∧
        ((∃ ci, ownerCircleIdx ns = some ci ∧
            addEdge (idToLNode nodeIds clusters) (s, t) =
              some (EdgePlacement.toCircle ci e)) ∨
          addEdge (idToLNode nodeIds clusters) (s, t) =
            some (EdgePlacement.toGraphManager e))) := by
  have hA := addEdge_resolved (idToLNode nodeIds clusters) s t ns nt hs ht
  constructor
  · intro he
    rw [hA, if_pos he]
  · intro hne
    by_cases hc : ns.clusterId = nt.clusterId ∧ ns.clusterId ≠ some (-1) ∧
        nt.clusterId ≠ some (-1)
    · rcases idToLNode_shape nodeIds clusters s ns hs with ⟨ci, hci, hmem, hns⟩ | ⟨hns, _⟩
      · have howner : ownerCircleIdx ns = some ci := by
          rw [hns]
          rfl
        have hPlace : addEdge (idToLNode nodeIds clusters) (s, t) =
            some (EdgePlacement.toCircle ci
              { source := ns, target := nt, isIntraCluster := true }) := by
          rw [hA, if_neg hne, if_pos hc, howner]
        exact ⟨{ source := ns, target := nt, isIntraCluster := true }, rfl, rfl,
          iff_of_true rfl ⟨hc.1, hc.2.1⟩, Or.inl ⟨ci, howner, hPlace⟩⟩
      · exact absurd hc.2.1 (by rw [hns]; simp [mkUnclusteredNode])
    · have hPlace : addEdge (idToLNode nodeIds clusters) (s, t) =
          some (EdgePlacement.toGraphManager
            { source := ns, target := nt, isIntraCluster := false }) := by
        rw [hA, if_neg hne, if_neg hc]
      refine ⟨{ source := ns, target := nt, isIntraCluster := false }, rfl, rfl, ?_,
        Or.inr hPlace⟩
      constructor
      · intro hfalse
        simp at hfalse
      · intro hd
        exact absurd ⟨hd.1, hd.2, fun hnt => hd.2 (hd.1.trans hnt)⟩ hc

/-!
## C5 — the order matrix

The nested loops of `computeOrderMatrix` are characterized cell by
cell: first one pass of the inner `j` loop, then the outer `i` loop,
then the full matrix.
-/

/-- The two cells written by `orderPairUpdate` for a pair `i ≠ j`. -/
theorem orderPairUpdate_apply (pi : ℚ) (angles : List ℚ) (m : Nat → Nat → Option Bool)
    (i j a b : Nat) (hij : i ≠ j) :
    orderPairUpdate pi angles m i j a b =
      if a = i ∧ b = j then some (orderBool pi angles i j)
      else if a = j ∧ b = i then some (!orderBool pi angles i j)
      else m a b := by
  have hmat : ∀ (mm : Nat → Nat → Option Bool) (x y : Nat) (v : Bool) (c d : Nat),
      matSet mm x y v c d = if c = x ∧ d = y then some v else mm c d :=
    fun _ _ _ _ _ _ => rfl
  by_cases hc : normalizedAngleDiff pi (angles.getD i 0) (angles.getD j 0) ≤ pi
  · have hb : orderBool pi angles i j = true := decide_eq_true hc
    have hLHS : orderPairUpdate pi angles m i j a b =
        if a = j ∧ b = i then some false
        else if a = i ∧ b = j then some true else m a b := by
      unfold orderPairUpdate
      rw [if_pos hc, hmat, hmat]
    rw [hLHS, hb]
    by_cases h1 : a = i ∧ b = j
    · have h2 : ¬(a = j ∧ b = i) := by
        rintro ⟨ha, hb2⟩
        exact hij (h1.1.symm.trans ha)
      rw [if_neg h2, if_pos h1, if_pos h1]
    · by_cases h2 : a = j ∧ b = i
      · rw [if_pos h2, if_neg h1, Bool.not_true, if_pos h2]
      · rw [if_neg h2, if_neg h1, if_neg h1, if_neg h2]
  · have hb : orderBool pi angles i j = false := decide_eq_false hc
    have hLHS : orderPairUpdate pi angles m i j a b =
        if a = j ∧ b = i then some true
        else if a = i ∧ b = j then some false else m a b := by
      unfold orderPairUpdate
      rw [if_neg hc, hmat, hmat]
    rw [hLHS, hb]
    by_cases h1 : a = i ∧ b = j
    · have h2 : ¬(a = j ∧ b = i) := by
        rintro ⟨ha, hb2⟩
        exact hij (h1.1.symm.trans ha)
      rw [if_neg h2, if_pos h1, if_pos h1]
    · by_cases h2 : a = j ∧ b = i
      · rw [if_pos h2, if_neg h1, Bool.not_false, if_pos h2]
      · rw [if_neg h2, if_neg h1, if_neg h1, if_neg h2]

/-- The inner `j` loop of `computeOrderMatrix` for a fixed `i` writes
exactly row `i` and column `i` (at the positions listed in `js` that
exceed `i`) and leaves every other cell of `m` alone. -/
theorem innerFold_apply (pi : ℚ) (angles : List ℚ) (i : Nat) (js : List Nat)
    (m : Nat → Nat → Option Bool) (a b : Nat) :
    (js.foldl (fun m j => if i < j then orderPairUpdate pi angles m i j else m) m) a b =
      if a = i ∧ i < b ∧ b ∈ js then some (orderBool pi angles i b)
      else if b = i ∧ i < a ∧ a ∈ js then some (!orderBool pi angles i a)
      else m a b := by
  induction js generalizing m with
  | nil => simp
  | cons j js ih =>
    simp only [List.foldl_cons]
    rw [ih]
    by_cases hj : i < j
    · rw [if_pos hj, orderPairUpdate_apply pi angles m i j a b (Nat.ne_of_lt hj)]
      by_cases hC1 : a = i ∧ i < b ∧ b ∈ js
      · obtain ⟨h1, h2, h3⟩ := hC1
        simp [h1, h2, h3, List.mem_cons]
      · by_cases hC2 : b = i ∧ i < a ∧ a ∈ js
        · obtain ⟨h1, h2, h3⟩ := hC2
          have hai : ¬(a = i) := by
            intro h
            rw [h] at h2
            exact Nat.lt_irrefl i h2
          simp [h1, h2, h3, hai, hC1, List.mem_cons]
        · by_cases hP1 : a = i ∧ b = j
          · obtain ⟨h1, h2⟩ := hP1
            have hib : i < b := by rw [h2]; exact hj
            have hjs : ¬(b ∈ js) := fun hmem => hC1 ⟨h1, hib, hmem⟩
            have hbi : ¬(b = i) := by
              intro h
              rw [h] at hib
              exact Nat.lt_irrefl i hib
            simp [h1, h2, hib, hjs, hbi, hj, List.mem_cons]
          · by_cases hP2 : a = j ∧ b = i
            · obtain ⟨h1, h2⟩ := hP2
              have hia : i < a := by rw [h1]; exact hj
              have hjs : ¬(a ∈ js) := fun hmem => hC2 ⟨h2, hia, hmem⟩
              have hai : ¬(a = i) := by
                intro h
                rw [h] at hia
                exact Nat.lt_irrefl i hia
              have hji : ¬(j = i) := Ne.symm (Nat.ne_of_lt hj)
              simp [h1, h2, hia, hjs, hai, hji, hj, List.mem_cons]
            · have hR1 : ¬(a = i ∧ i < b ∧ b ∈ j :: js) := by
                rintro ⟨h1, h2, h3⟩
                rcases List.mem_cons.mp h3 with h4 | h4
                · exact hP1 ⟨h1, h4⟩
                · exact hC1 ⟨h1, h2, h4⟩
              have hR2 : ¬(b = i ∧ i < a ∧ a ∈ j :: js) := by
                rintro ⟨h1, h2, h3⟩
                rcases List.mem_cons.mp h3 with h4 | h4
                · exact hP2 ⟨h4, h1⟩
                · exact hC2 ⟨h1, h2, h4⟩
              rw [if_neg hC1, if_neg hC2, if_neg hP1, if_neg hP2, if_neg hR1, if_neg hR2]
    · rw [if_neg hj]
      have hR1 : (a = i ∧ i < b ∧ b ∈ j :: js) ↔ (a = i ∧ i < b ∧ b ∈ js) := by
        constructor
        · rintro ⟨h1, h2, h3⟩
          rcases List.mem_cons.mp h3 with h4 | h4
          · exfalso
            rw [h4] at h2
            exact hj h2
          · exact ⟨h1, h2, h4⟩
        · rintro ⟨h1, h2, h3⟩
          exact ⟨h1, h2, List.mem_cons_of_mem j h3⟩
      have hR2 : (b = i ∧ i < a ∧ a ∈ j :: js) ↔ (b = i ∧ i < a ∧ a ∈ js) := by
        constructor
        · rintro ⟨h1, h2, h3⟩
          rcases List.mem_cons.mp h3 with h4 | h4
          · exfalso
            rw [h4] at h2
            exact hj h2
          · exact ⟨h1, h2, h4⟩
        · rintro ⟨h1, h2, h3⟩
          exact ⟨h1, h2, List.mem_cons_of_mem j h3⟩
      simp only [hR1, hR2]

/-- The outer `i` loop of `computeOrderMatrix`. -/
theorem outerFold_apply (pi : ℚ) (angles : List ℚ) (N : Nat) (is : List Nat)
    (m : Nat → Nat → Option Bool) (a b : Nat) :
    (is.foldl (fun m i => (List.range N).foldl
        (fun m j => if i < j then orderPairUpdate pi angles m i j else m) m) m) a b =
      if a ∈ is ∧ a < b ∧ b < N then some (orderBool pi angles a b)
      else if b ∈ is ∧ b < a ∧ a < N then some (!orderBool pi angles b a)
      else m a b := by
  induction is generalizing m with
  | nil => simp
  | cons i is ih =>
    simp only [List.foldl_cons]
    rw [ih, innerFold_apply pi angles i (List.range N) m a b]
    by_cases hC1 : a ∈ is ∧ a < b ∧ b < N
    · obtain ⟨h1, h2, h3⟩ := hC1
      have hnab : ¬(b < a) := by omega
      simp [h1, h2, h3, hnab, List.mem_cons]
    · by_cases hC2 : b ∈ is ∧ b < a ∧ a < N
      · obtain ⟨h1, h2, h3⟩ := hC2
        have hnab : ¬(a < b) := by omega
        simp [h1, h2, h3, hnab, hC1, List.mem_cons]
      · by_cases hP1 : a = i ∧ i < b ∧ b < N
        · obtain ⟨rfl, h2, h3⟩ := hP1
          have hais : ¬(a ∈ is) := fun hm => hC1 ⟨hm, h2, h3⟩
          have hnb : ¬(b < a) := by omega
          have hnbi : ¬(b = a) := by omega
          simp [h2, h3, hais, hnb, hnbi, List.mem_cons, List.mem_range]
        · by_cases hP2 : b = i ∧ i < a ∧ a < N
          · obtain ⟨rfl, h2, h3⟩ := hP2
            have hbis : ¬(b ∈ is) := fun hm => hC2 ⟨hm, h2, h3⟩
            have hnab : ¬(a < b) := by omega
            have hnai : ¬(a = b) := by omega
            simp [h2, h3, hbis, hnab, hnai, List.mem_cons, List.mem_range]
          · have hS1 : ¬(a = i ∧ i < b ∧ b ∈ List.range N) := by
              rintro ⟨h1, h2, h3⟩
              exact hP1 ⟨h1, h2, List.mem_range.mp h3⟩
            have hS2 : ¬(b = i ∧ i < a ∧ a ∈ List.range N) := by
              rintro ⟨h1, h2, h3⟩
              exact hP2 ⟨h1, h2, List.mem_range.mp h3⟩
            have hR1 : ¬(a ∈ i :: is ∧ a < b ∧ b < N) := by
              rintro ⟨h1, h2, h3⟩
              rcases List.mem_cons.mp h1 with h4 | h4
              · exact hP1 ⟨h4, by omega, h3⟩
              · exact hC1 ⟨h4, h2, h3⟩
            have hR2 : ¬(b ∈ i :: is ∧ b < a ∧ a < N) := by
              rintro ⟨h1, h2, h3⟩
              rcases List.mem_cons.mp h1 with h4 | h4
              · exact hP2 ⟨h4, by omega, h3⟩
              · exact hC2 ⟨h4, h2, h3⟩
            rw [if_neg hC1, if_neg hC2, if_neg hS1, if_neg hS2, if_neg hR1, if_neg hR2]

/-- Cell-level description of the computed order matrix: above the
diagonal the clockwise test, below it the complement, elsewhere
unset. -/
theorem computeOrderMatrixFn_apply (pi : ℚ) (angles : List ℚ) (a b : Nat) :
    computeOrderMatrixFn pi angles a b =
      if a < b ∧ b < angles.length then some (orderBool pi angles a b)
      else if b < a ∧ a < angles.length then some (!orderBool pi angles b a)
      else none := by
  unfold computeOrderMatrixFn
  rw [outerFold_apply pi angles angles.length (List.range angles.length)
    (fun _ _ => none) a b]
  by_cases h1 : a < b ∧ b < angles.length
  · have ha : a ∈ List.range angles.length := List.mem_range.mpr (by omega)
    simp [h1.1, h1.2, ha]
  · by_cases h2 : b < a ∧ a < angles.length
    · have hb : b ∈ List.range angles.length := List.mem_range.mpr (by omega)
      have hnab : ¬(a < b) := by omega
      simp [h2.1, h2.2, hb, hnab]
    · have hR1 : ¬(a ∈ List.range angles.length ∧ a < b ∧ b < angles.length) := by
        rintro ⟨_, h3, h4⟩
        exact h1 ⟨h3, h4⟩
      have hR2 : ¬(b ∈ List.range angles.length ∧ b < a ∧ a < angles.length) := by
        rintro ⟨_, h3, h4⟩
        exact h2 ⟨h3, h4⟩
      simp [h1, h2, hR1, hR2]

/-- C5: for every circle (given by its angle list) and every pair of
distinct valid positions, the matrix holds a boolean at `(i,j)` and its
negation at `(j,i)`; for `i < j` that boolean is true exactly when the
normalized clockwise angle difference is at most `pi`; the diagonal
stays unset; and when all angles lie in `[0, 2·pi)` the normalized
difference lies in `[0, 2·pi)` as well. -/
theorem c5_order_matrix (pi : ℚ) (angles : List ℚ) (i j : Nat)
    (hi : i < angles.length) (hj : j < angles.length) (hne : i ≠ j) :
    (∃ v : Bool, computeOrderMatrixFn pi angles i j = some v ∧
        computeOrderMatrixFn pi angles j i = some (!v) ∧
        (i < j → (v = true ↔
          normalizedAngleDiff pi (angles.getD i 0) (angles.getD j 0) ≤ pi))) ∧
      computeOrderMatrixFn pi angles i i = none ∧
      ((∀ x ∈ angles, 0 ≤ x ∧ x < 2 * pi) →
        0 ≤ normalizedAngleDiff pi (angles.getD i 0) (angles.getD j 0) ∧
          normalizedAngleDiff pi (angles.getD i 0) (angles.getD j 0) < 2 * pi) := by
  refine ⟨?_, ?_, ?_⟩
  · rcases Nat.lt_or_ge i j with hlt | hge
    · refine ⟨orderBool pi angles i j, ?_, ?_, fun _ => ?_⟩
      · rw [computeOrderMatrixFn_apply]
        simp [hlt, hj]
      · rw [computeOrderMatrixFn_apply]
        have hn : ¬(j < i) := by omega
        simp [hlt, hj, hn]
      · simp [orderBool]
    · have hlt : j < i := by omega
      refine ⟨!orderBool pi angles j i, ?_, ?_, fun hij => absurd hij (by omega)⟩
      · rw [computeOrderMatrixFn_apply]
        have hn : ¬(i < j) := by omega
        simp [hlt, hi, hn]
      · rw [computeOrderMatrixFn_apply]
        simp [hlt, hi, Bool.not_not]
  · rw [computeOrderMatrixFn_apply]
    simp
  · intro hall
    have hmi : angles.getD i 0 ∈ angles := by
      rw [List.getD_eq_getElem angles 0 hi]
      exact List.getElem_mem hi
    have hmj : angles.getD j 0 ∈ angles := by
      rw [List.getD_eq_getElem angles 0 hj]
      exact List.getElem_mem hj
    have h1 := hall (angles.getD i 0) hmi
    have h2 := hall (angles.getD j 0) hmj
    simp only [normalizedAngleDiff]
    by_cases hd : angles.getD j 0 - angles.getD i 0 < 0
    · rw [if_pos hd]
      constructor <;> linarith
    · rw [if_neg hd]
      constructor <;> linarith

/-- C5 witness: the order matrix of the 3-node circle with angles
`[0, 1, 3]` under `pi = 2`, at the pair `(0, 2)`. -/
theorem c5_order_matrix_witness :
    (0 : Nat) < ([0, 1, 3] : List ℚ).length ∧ (2 : Nat) < ([0, 1, 3] : List ℚ).length ∧
      (0 : Nat) ≠ 2 ∧
      ((∃ v : Bool, computeOrderMatrixFn 2 [0, 1, 3] 0 2 = some v ∧
          computeOrderMatrixFn 2 [0, 1, 3] 2 0 = some (!v) ∧
          ((0 : Nat) < 2 → (v = true ↔
            normalizedAngleDiff 2 (([0, 1, 3] : List ℚ).getD 0 0)
              (([0, 1, 3] : List ℚ).getD 2 0) ≤ 2))) ∧
        computeOrderMatrixFn 2 [0, 1, 3] 0 0 = none ∧
        ((∀ x ∈ ([0, 1, 3] : List ℚ), 0 ≤ x ∧ x < 2 * 2) →
          0 ≤ normalizedAngleDiff 2 (([0, 1, 3] : List ℚ).getD 0 0)
              (([0, 1, 3] : List ℚ).getD 2 0) ∧
            normalizedAngleDiff 2 (([0, 1, 3] : List ℚ).getD 0 0)
              (([0, 1, 3] : List ℚ).getD 2 0) < 2 * 2)) :=
  ⟨by decide, by decide, by decide,
    c5_order_matrix 2 [0, 1, 3] 0 2 (by decide) (by decide) (by decide)⟩

/-- C7 witness: cluster `[0, 1]` with an unclustered node `2`; the
intra-cluster classification of the edge `(0, 1)`. -/
theorem c7_edge_classification_witness :
    idToLNode [0, 1, 2] [[0, 1]] 0 = some (mkMemberNode 0 0) ∧
      idToLNode [0, 1, 2] [[0, 1]] 1 = some (mkMemberNode 0 1) ∧
      ((mkMemberNode 0 0 = mkMemberNode 0 1 →
          addEdge (idToLNode [0, 1, 2] [[0, 1]]) (0, 1) = some EdgePlacement.dropped) ∧
        (mkMemberNode 0 0 ≠ mkMemberNode 0 1 →
          ∃ e : CEdge, e.source = mkMemberNode 0 0 ∧ e.target = mkMemberNode 0 1 ∧
            (e.isIntraCluster = true ↔
              ((mkMemberNode 0 0).clusterId = (mkMemberNode 0 1).clusterId ∧
                (mkMemberNode 0 0).clusterId ≠ some (-1))) ∧
            ((∃ ci, ownerCircleIdx (mkMemberNode 0 0) = some ci ∧
                addEdge (idToLNode [0, 1, 2] [[0, 1]]) (0, 1) =
                  some (EdgePlacement.toCircle ci e)) ∨
              addEdge (idToLNode [0, 1, 2] [[0, 1]]) (0, 1) =
                some (EdgePlacement.toGraphManager e)))) :=
  ⟨by decide, by decide,
    c7_edge_classification [0, 1, 2] [[0, 1]] 0 1 (mkMemberNode 0 0) (mkMemberNode 0 1)
      (by decide) (by decide)⟩

/-!
## C6 — the in/out partition after construction

The out-node determination loop is analyzed through a permutation
invariant (`CirclesInv`) plus frame and monotonicity lemmas.
-/

/-- `getD` after `set` at the written index. -/
theorem getD_set_self {α : Type} (l : List α) (i : Nat) (a d : α) (h : i < l.length) :
    (l.set i a).getD i d = a := by
  rw [List.getD_eq_getElem?_getD]
  simp [List.getElem?_set_self, h]

/-- `getD` after `set` at a different index. -/
theorem getD_set_ne {α : Type} (l : List α) (i j : Nat) (a d : α) (h : i ≠ j) :
    (l.set i a).getD j d = l.getD j d := by
  rw [List.getD_eq_getElem?_getD, List.getD_eq_getElem?_getD]
  rw [List.getElem?_set_ne h]

/-- `moveToOut` never touches the on-circle node list. -/
theorem moveToOut_onCircle (c : BCircle) (n : CNode) :
    (moveToOut c n).onCircleNodes = c.onCircleNodes := by
  unfold moveToOut
  by_cases h : n ∈ c.inNodes <;> simp [h]

/-- `moveToOut` preserves the partition permutation. -/
theorem moveToOut_perm (c : BCircle) (n : CNode)
    (hp : (c.inNodes ++ c.outNodes).Perm c.onCircleNodes) :
    ((moveToOut c n).inNodes ++ (moveToOut c n).outNodes).Perm
      (moveToOut c n).onCircleNodes := by
  unfold moveToOut
  by_cases h : n ∈ c.inNodes
  · rw [if_pos h]
    have h1 : c.inNodes.erase n ++ (c.outNodes ++ [n]) =
        (c.inNodes.erase n ++ c.outNodes) ++ [n] := (List.append_assoc _ _ _).symm
    have hA : c.inNodes.Perm (n :: c.inNodes.erase n) := List.perm_cons_erase h
    have p3 : ((n :: c.inNodes.erase n) ++ c.outNodes).Perm (c.inNodes ++ c.outNodes) :=
      List.Perm.append_right c.outNodes hA.symm
    have p1 : ((c.inNodes.erase n ++ c.outNodes) ++ [n]).Perm
        (n :: (c.inNodes.erase n ++ c.outNodes)) := List.perm_append_singleton n _
    show (c.inNodes.erase n ++ (c.outNodes ++ [n])).Perm c.onCircleNodes
    rw [h1]
    exact (p1.trans p3).trans hp
  · rw [if_neg h]
    exact hp

/-- `moveToOut` only grows the out-node list. -/
theorem moveToOut_out_mono (c : BCircle) (x n : CNode) (h : n ∈ c.outNodes) :
    n ∈ (moveToOut c x).outNodes := by
  unfold moveToOut
  by_cases hx : x ∈ c.inNodes
  · rw [if_pos hx]
    exact List.mem_append_left _ h
  · rw [if_neg hx]
    exact h

/-- `moveToOut` puts the moved node in the out-node list whenever it
was in either list. -/
theorem moveToOut_hit (c : BCircle) (n : CNode)
    (h : n ∈ c.inNodes ∨ n ∈ c.outNodes) :
    n ∈ (moveToOut c n).outNodes := by
  unfold moveToOut
  by_cases hx : n ∈ c.inNodes
  · rw [if_pos hx]
    simp
  · rw [if_neg hx]
    rcases h with h | h
    · exact absurd h hx
    · exact h

/-- `processEndpoint` preserves list length. -/
theorem processEndpoint_length (cs : List BCircle) (n : CNode) :
    (processEndpoint cs n).length = cs.length := by
  unfold processEndpoint
  by_cases h : n.clusterId ≠ some (-1)
  · rw [if_pos h]
    cases n.ref <;> simp
  · rw [if_neg h]

/-- `processEndpoint` preserves every circle's on-circle node list. -/
theorem processEndpoint_onCircle (cs : List BCircle) (n : CNode) (ci : Nat) :
    ((processEndpoint cs n).getD ci emptyBCircle).onCircleNodes =
      (cs.getD ci emptyBCircle).onCircleNodes := by
  unfold processEndpoint
  by_cases h : n.clusterId ≠ some (-1)
  · rw [if_pos h]
    cases n.ref with
    | member cj id =>
      dsimp only
      by_cases hlen : cj < cs.length
      · by_cases hci : cj = ci
        · subst hci
          rw [getD_set_self _ _ _ _ hlen]
          exact moveToOut_onCircle _ _
        · rw [getD_set_ne _ _ _ _ _ hci]
      · rw [List.set_eq_of_length_le (Nat.le_of_not_lt hlen)]
    | placeholder cj => rfl
    | unclustered id => rfl
  · rw [if_neg h]

/-- `processEndpoint` preserves the partition invariant. -/
theorem processEndpoint_perm (cs : List BCircle) (n : CNode) (hp : CirclesInv cs) :
    CirclesInv (processEndpoint cs n) := by
  intro ci
  unfold processEndpoint
  by_cases h : n.clusterId ≠ some (-1)
  · rw [if_pos h]
    cases n.ref with
    | member cj id =>
      dsimp only
      by_cases hlen : cj < cs.length
      · by_cases hci : cj = ci
        · subst hci
          rw [getD_set_self _ _ _ _ hlen]
          exact moveToOut_perm _ _ (hp cj)
        · rw [getD_set_ne _ _ _ _ _ hci]
          exact hp ci
      · rw [List.set_eq_of_length_le (Nat.le_of_not_lt hlen)]
        exact hp ci
    | placeholder cj => exact hp ci
    | unclustered id => exact hp ci
  · rw [if_neg h]
    exact hp ci

/-- `processEndpoint` only grows out-node lists. -/
theorem processEndpoint_out_mono (cs : List BCircle) (x : CNode) (ci : Nat) (n : CNode)
    (hn : n ∈ (cs.getD ci emptyBCircle).outNodes) :
    n ∈ ((processEndpoint cs x).getD ci emptyBCircle).outNodes := by
  unfold processEndpoint
  by_cases h : x.clusterId ≠ some (-1)
  · rw [if_pos h]
    cases x.ref with
    | member cj id =>
      dsimp only
      by_cases hlen : cj < cs.length
      · by_cases hci : cj = ci
        · subst hci
          rw [getD_set_self _ _ _ _ hlen]
          exact moveToOut_out_mono _ _ _ hn
        · rw [getD_set_ne _ _ _ _ _ hci]
          exact hn
      · rw [List.set_eq_of_length_le (Nat.le_of_not_lt hlen)]
        exact hn
    | placeholder cj => exact hn
    | unclustered id => exact hn
  · rw [if_neg h]
    exact hn

/-- The partition invariant puts every on-circle node in one of the two
lists. -/
theorem inNodes_or_outNodes (cs : List BCircle) (ci : Nat) (n : CNode)
    (hinv : CirclesInv cs)
    (hmem : n ∈ (cs.getD ci emptyBCircle).onCircleNodes) :
    n ∈ (cs.getD ci emptyBCircle).inNodes ∨ n ∈ (cs.getD ci emptyBCircle).outNodes :=
  List.mem_append.mp ((hinv ci).mem_iff.mpr hmem)

/-- `processEndpoint` applied to a member node of circle `ci` (with a
non-sentinel cluster id) that sits in one of the circle's two lists
puts it in the out-node list. -/
theorem processEndpoint_hit (cs : List BCircle) (ci : Nat) (id : Nat) (n : CNode)
    (href : n.ref = NodeRef.member ci id)
    (hcid : n.clusterId ≠ some (-1))
    (hn : n ∈ (cs.getD ci emptyBCircle).inNodes ∨ n ∈ (cs.getD ci emptyBCircle).outNodes)
    (hlen : ci < cs.length) :
    n ∈ ((processEndpoint cs n).getD ci emptyBCircle).outNodes := by
  unfold processEndpoint
  rw [if_pos hcid]
  simp only [href]
  rw [getD_set_self _ _ _ _ hlen]
  exact moveToOut_hit _ _ hn

/-- `processGmEdge` frame: on-circle node lists. -/
theorem processGmEdge_onCircle (cs : List BCircle) (e : CEdge) (ci : Nat) :
    ((processGmEdge cs e).getD ci emptyBCircle).onCircleNodes =
      (cs.getD ci emptyBCircle).onCircleNodes := by
  unfold processGmEdge
  rw [processEndpoint_onCircle, processEndpoint_onCircle]

/-- `processGmEdge` preserves the partition invariant. -/
theorem processGmEdge_perm (cs : List BCircle) (e : CEdge) (hp : CirclesInv cs) :
    CirclesInv (processGmEdge cs e) :=
  processEndpoint_perm _ _ (processEndpoint_perm _ _ hp)

/-- `processGmEdge` preserves list length. -/
theorem processGmEdge_length (cs : List BCircle) (e : CEdge) :
    (processGmEdge cs e).length = cs.length := by
  unfold processGmEdge
  rw [processEndpoint_length, processEndpoint_length]

/-- `processGmEdge` only grows out-node lists. -/
theorem processGmEdge_out_mono (cs : List BCircle) (e : CEdge) (ci : Nat) (n : CNode)
    (hn : n ∈ (cs.getD ci emptyBCircle).outNodes) :
    n ∈ ((processGmEdge cs e).getD ci emptyBCircle).outNodes :=
  processEndpoint_out_mono _ _ _ _ (processEndpoint_out_mono _ _ _ _ hn)

/-- Processing an edge puts each of its member endpoints into the
owning circle's out-node list. -/
theorem processGmEdge_hit (cs : List BCircle) (e : CEdge) (ci : Nat) (id : Nat) (n : CNode)
    (hend : n = e.source ∨ n = e.target)
    (href : n.ref = NodeRef.member ci id) (hcid : n.clusterId ≠ some (-1))
    (hinv : CirclesInv cs)
    (hmem : n ∈ (cs.getD ci emptyBCircle).onCircleNodes)
    (hlen : ci < cs.length) :
    n ∈ ((processGmEdge cs e).getD ci emptyBCircle).outNodes := by
  unfold processGmEdge
  rcases hend with rfl | rfl
  · exact processEndpoint_out_mono _ _ _ _
      (processEndpoint_hit cs ci id e.source href hcid
        (inNodes_or_outNodes cs ci e.source hinv hmem) hlen)
  · have hinv1 : CirclesInv (processEndpoint cs e.source) :=
      processEndpoint_perm cs e.source hinv
    have hmem1 : e.target ∈
        ((processEndpoint cs e.source).getD ci emptyBCircle).onCircleNodes := by
      rw [processEndpoint_onCircle]
      exact hmem
    have hlen1 : ci < (processEndpoint cs e.source).length := by
      rw [processEndpoint_length]
      exact hlen
    exact processEndpoint_hit _ ci id e.target href hcid
      (inNodes_or_outNodes _ ci e.target hinv1 hmem1) hlen1

/-- `determineOutNodes` preserves the partition invariant. -/
theorem determineOutNodes_inv (gmE : List CEdge) (cs : List BCircle)
    (hinv : CirclesInv cs) : CirclesInv (determineOutNodes cs gmE) := by
  induction gmE generalizing cs with
  | nil => exact hinv
  | cons e rest ih => exact ih _ (processGmEdge_perm cs e hinv)

/-- `determineOutNodes` frame: on-circle node lists. -/
theorem determineOutNodes_onCircle (gmE : List CEdge) (cs : List BCircle) (ci : Nat) :
    ((determineOutNodes cs gmE).getD ci emptyBCircle).onCircleNodes =
      (cs.getD ci emptyBCircle).onCircleNodes := by
  induction gmE generalizing cs with
  | nil => rfl
  | cons e rest ih => exact (ih _).trans (processGmEdge_onCircle cs e ci)

/-- `determineOutNodes` preserves list length. -/
theorem determineOutNodes_length (gmE : List CEdge) (cs : List BCircle) :
    (determineOutNodes cs gmE).length = cs.length := by
  induction gmE generalizing cs with
  | nil => rfl
  | cons e rest ih => exact (ih _).trans (processGmEdge_length cs e)

/-- `determineOutNodes` only grows out-node lists. -/
theorem determineOutNodes_out_mono (gmE : List CEdge) (cs : List BCircle) (ci : Nat)
    (n : CNode) (hn : n ∈ (cs.getD ci emptyBCircle).outNodes) :
    n ∈ ((determineOutNodes cs gmE).getD ci emptyBCircle).outNodes := by
  induction gmE generalizing cs with
  | nil => exact hn
  | cons e rest ih => exact ih _ (processGmEdge_out_mono cs e ci n hn)

/-- Every member endpoint of a processed inter-cluster edge ends up in
its circle's out-node list. -/
theorem determineOutNodes_hit (ci : Nat) (id : Nat) (n : CNode)
    (href : n.ref = NodeRef.member ci id) (hcid : n.clusterId ≠ some (-1)) :
    ∀ (gmE : List CEdge) (cs : List BCircle) (e : CEdge), e ∈ gmE →
      (n = e.source ∨ n = e.target) → CirclesInv cs →
      n ∈ (cs.getD ci emptyBCircle).onCircleNodes → ci < cs.length →
      n ∈ ((determineOutNodes cs gmE).getD ci emptyBCircle).outNodes := by
  intro gmE
  induction gmE with
  | nil =>
    intro cs e he
    exact absurd he (List.not_mem_nil e)
  | cons e0 rest ih =>
    intro cs e he hend hinv hmem hlen
    rcases List.mem_cons.mp he with rfl | he2
    · exact determineOutNodes_out_mono rest _ ci n
        (processGmEdge_hit cs e ci id n hend href hcid hinv hmem hlen)
    · exact ih _ e he2 hend (processGmEdge_perm cs e0 hinv)
        (by rw [processGmEdge_onCircle]; exact hmem)
        (by rw [processGmEdge_length]; exact hlen)

/-- The circles as built (before out-node determination), at a valid
index. -/
theorem buildCircles_getD (clusters : List (List Nat)) (ce : List (Nat × CEdge))
    (ci : Nat) (h : ci < clusters.length) :
    (buildCircles clusters ce).getD ci emptyBCircle =
      { onCircleNodes := (clusters.getD ci []).map (mkMemberNode ci),
        inNodes := (clusters.getD ci []).map (mkMemberNode ci),
        outNodes := [],
        intraEdges := ce.filterMap (fun p => if p.1 = ci then some p.2 else none) } := by
  unfold buildCircles
  rw [List.getD_eq_getElem?_getD, List.getElem?_map]
  simp [List.getElem?_range, h]

/-- The circle list as built has one circle per cluster. -/
theorem buildCircles_length (clusters : List (List Nat)) (ce : List (Nat × CEdge)) :
    (buildCircles clusters ce).length = clusters.length := by
  unfold buildCircles
  simp

/-- Out-of-range circle indices give the default circle. -/
theorem buildCircles_getD_ge (clusters : List (List Nat)) (ce : List (Nat × CEdge))
    (ci : Nat) (h : clusters.length ≤ ci) :
    (buildCircles clusters ce).getD ci emptyBCircle = emptyBCircle := by
  rw [List.getD_eq_getElem?_getD, List.getElem?_eq_none]
  · rfl
  · rw [buildCircles_length]
    exact h

/-- The as-built circles satisfy the partition invariant (all members
are in-nodes, no out-nodes yet). -/
theorem buildCircles_inv (clusters : List (List Nat)) (ce : List (Nat × CEdge)) :
    CirclesInv (buildCircles clusters ce) := by
  intro ci
  by_cases h : ci < clusters.length
  · rw [buildCircles_getD clusters ce ci h]
    simp
  · rw [buildCircles_getD_ge clusters ce ci (Nat.le_of_not_lt h)]
    simp [emptyBCircle]

/-- Member-node construction is injective in the id. -/
theorem mkMemberNode_inj (ci : Nat) : Function.Injective (mkMemberNode ci) := by
  intro x y hxy
  exact Option.some.inj (congrArg CNode.nid hxy)

/-- C6: after cluster-graph construction, each circle's `inNodes` and
`outNodes` are disjoint, their union is exactly the circle's on-circle
node set, every on-circle node that is an endpoint of some
inter-cluster (graph-manager) edge lies in `outNodes`, and `outNodes`
has no duplicates (each node was moved at most once). -/
theorem c6_in_out_partition (nodeIds : List Nat) (edges : List (Nat × Nat))
    (clusters : List (List Nat)) (out : BuilderOut)
    (h : convertToClusteredGraph nodeIds edges clusters = some out)
    (hnodup : ∀ g ∈ clusters, g.Nodup) (ci : Nat) :
    (∀ n : CNode, ¬(n ∈ (out.circles.getD ci emptyBCircle).inNodes ∧
        n ∈ (out.circles.getD ci emptyBCircle).outNodes)) ∧
      (∀ n : CNode, (n ∈ (out.circles.getD ci emptyBCircle).inNodes ∨
          n ∈ (out.circles.getD ci emptyBCircle).outNodes) ↔
        n ∈ (out.circles.getD ci emptyBCircle).onCircleNodes) ∧
      (∀ e ∈ out.gmEdges, ∀ n : CNode, (n = e.source ∨ n = e.target) →
        n ∈ (out.circles.getD ci emptyBCircle).onCircleNodes →
        n ∈ (out.circles.getD ci emptyBCircle).outNodes) ∧
      (out.circles.getD ci emptyBCircle).outNodes.Nodup := by
  obtain ⟨ep, hA, hroot, hcirc, hgm⟩ :=
    convertToClusteredGraph_eq_some nodeIds edges clusters out h
  have hinv0 : CirclesInv (buildCircles clusters ep.circleEdges) :=
    buildCircles_inv clusters ep.circleEdges
  have hinv : CirclesInv out.circles := by
    rw [hcirc]
    exact determineOutNodes_inv ep.gmEdges _ hinv0
  have honc : (out.circles.getD ci emptyBCircle).onCircleNodes =
      ((buildCircles clusters ep.circleEdges).getD ci emptyBCircle).onCircleNodes := by
    rw [hcirc]
    exact determineOutNodes_onCircle ep.gmEdges _ ci
  have hond : (out.circles.getD ci emptyBCircle).onCircleNodes.Nodup := by
    rw [honc]
    by_cases hlt : ci < clusters.length
    · rw [buildCircles_getD clusters ep.circleEdges ci hlt]
      have hmemg : clusters.getD ci [] ∈ clusters := by
        rw [List.getD_eq_getElem clusters [] hlt]
        exact List.getElem_mem hlt
      exact (hnodup _ hmemg).map (mkMemberNode_inj ci)
    · rw [buildCircles_getD_ge clusters ep.circleEdges ci (Nat.le_of_not_lt hlt)]
      simp [emptyBCircle]
  have hperm := hinv ci
  have hnd2 : ((out.circles.getD ci emptyBCircle).inNodes ++
      (out.circles.getD ci emptyBCircle).outNodes).Nodup := hperm.nodup_iff.mpr hond
  refine ⟨?_, ?_, ?_, ?_⟩
  · rintro n ⟨h1, h2⟩
    exact (List.disjoint_of_nodup_append hnd2) h1 h2
  · intro n
    rw [← List.mem_append]
    exact hperm.mem_iff
  · intro e he n hend hmem
    have hmem0 : n ∈
        ((buildCircles clusters ep.circleEdges).getD ci emptyBCircle).onCircleNodes := by
      rw [← honc]
      exact hmem
    have hlt : ci < clusters.length := by
      by_contra hge
      rw [buildCircles_getD_ge clusters ep.circleEdges ci (Nat.le_of_not_lt hge)] at hmem0
      simp [emptyBCircle] at hmem0
    have hshape : ∃ id, n = mkMemberNode ci id := by
      rw [buildCircles_getD clusters ep.circleEdges ci hlt] at hmem0
      obtain ⟨id, _, hid⟩ := List.mem_map.mp hmem0
      exact ⟨id, hid.symm⟩
    obtain ⟨id, rfl⟩ := hshape
    rw [hgm] at he
    rw [hcirc]
    exact determineOutNodes_hit ci id (mkMemberNode ci id) rfl
      (mkMemberNode_clusterId_ne ci id) ep.gmEdges _ e he hend hinv0 hmem0
      (by rw [buildCircles_length]; exact hlt)
  · exact ((List.nodup_append.mp hnd2).2.1 : _)

/-- C6 witness: the two-member cluster `[0, 1]` with an unclustered
node `2`, one inter-cluster edge `(0, 2)` and one intra-cluster edge
`(0, 1)`. -/
theorem c6_in_out_partition_witness :
    convertToClusteredGraph [0, 1, 2] [(0, 2), (0, 1)] [[0, 1]] = some exBuilderOut2 ∧
      (∀ g ∈ ([[0, 1]] : List (List Nat)), g.Nodup) ∧
      ((∀ n : CNode, ¬(n ∈ (exBuilderOut2.circles.getD 0 emptyBCircle).inNodes ∧
          n ∈ (exBuilderOut2.circles.getD 0 emptyBCircle).outNodes)) ∧
        (∀ n : CNode, (n ∈ (exBuilderOut2.circles.getD 0 emptyBCircle).inNodes ∨
            n ∈ (exBuilderOut2.circles.getD 0 emptyBCircle).outNodes) ↔
          n ∈ (exBuilderOut2.circles.getD 0 emptyBCircle).onCircleNodes) ∧
        (∀ e ∈ exBuilderOut2.gmEdges, ∀ n : CNode, (n = e.source ∨ n = e.target) →
          n ∈ (exBuilderOut2.circles.getD 0 emptyBCircle).onCircleNodes →
          n ∈ (exBuilderOut2.circles.getD 0 emptyBCircle).outNodes) ∧
        (exBuilderOut2.circles.getD 0 emptyBCircle).outNodes.Nodup) :=
  ⟨by decide, by decide,
    c6_in_out_partition [0, 1, 2] [(0, 2), (0, 1)] [[0, 1]] exBuilderOut2
      (by decide) (by decide) 0⟩

end CiSE
